/-
Verification of the arto class-name resolution engine.

The definitions below are a shallow embedding of the TypeScript sources:
  * `normalizeClassName`  — src/packages/arto/src/utils/normalize-class-name.ts
  * `evaluateSimpleLogic`, `evaluateObjectLogic`, `VariantsPlugin`, `RulesPlugin`
                          — src/packages/arto/src/plugins/variants-plugin.ts (file
                            also holds the rules plugin)
  * `StatesPlugin`, `checkStateDependencies` — states-plugin source
  * `safeMergeDefaults`, `collectTrueKeys`   — utils sources
  * `ClassNameBuilder`    — the builder class (source text reproduced in
                            src/packages/arto/README.md)
  * `arto`                — src/packages/arto/src/arto.ts

Modelling conventions:
  * JavaScript objects (string-keyed records with insertion order) are modelled
    as association lists (`StrMap`), where assignment updates an existing key
    in place and appends a fresh key at the end, matching JS key order.
  * JS `Set` iteration order is insertion order, modelled as a `List`.
  * A class-name callback is identified by a numeric id (JS reference
    identity); its behaviour is looked up in an explicit environment `CbEnv`,
    so cyclic callbacks are representable.  An id absent from the environment
    behaves as a callback returning `undefined`.
  * Thrown `ArtoError`s are modelled with `Except String`, the message carrying
    the "[Arto Error]: " prefix added by `throwError`.
  * `VariantValue` (string | number in TS) is modelled as `String`; JS object
    keys are strings in any case.
-/
import Mathlib

set_option linter.unusedVariables false

/-! ## Insertion-ordered string maps (JS objects) -/

/-- Association list modelling a JS object: insertion-ordered string keys. -/
abbrev StrMap (α : Type) := List (String × α)

/-- Property read `m[k]`. -/
def getA {α : Type} : StrMap α → String → Option α
  | [], _ => none
  | (k', v') :: rest, k => if k' = k then some v' else getA rest k

/-- Property write `m[k] = v`: updates in place, or appends a new key. -/
def setA {α : Type} : StrMap α → String → α → StrMap α
  | [], k, v => [(k, v)]
  | (k', v') :: rest, k, v =>
    if k' = k then (k', v) :: rest else (k', v') :: setA rest k v

/-! ## Class expressions (`ClassName<TContext>` in class-name.ts) -/

/-- A runtime class-expression value: string, array, callback reference,
`null`/`undefined`, or an unsupported value (number/object) with its JS
truthiness. A callback is a reference identified by `Nat`. -/
inductive ClassName : Type where
  | str : String → ClassName
  | arr : List ClassName → ClassName
  | cb : Nat → ClassName
  | nullish : ClassName
  | other : Bool → ClassName

/-- JS truthiness of a class-expression value (`''` is falsy, arrays and
functions are truthy). -/
def ClassName.truthy : ClassName → Bool
  | .str s => !(s = "")
  | .arr _ => true
  | .cb _ => true
  | .nullish => false
  | .other b => b

/-- `isClassNameType` from utils/type-guards.ts: string, array or function. -/
def isClassNameType : ClassName → Bool
  | .str _ => true
  | .arr _ => true
  | .cb _ => true
  | .nullish => false
  | .other _ => false

/-- Behaviour environment for callbacks: maps a callback id to the function it
stands for; the result is a thrown message or a returned value. -/
abbrev CbEnv (γ : Type) := List (Nat × (Option γ → Except String ClassName))

/-- Looks up the behaviour of callback id `i` in the environment. -/
def lookupCb {γ : Type} : CbEnv γ → Nat → Option (Option γ → Except String ClassName)
  | [], _ => none
  | (i, f) :: rest, id0 => if i = id0 then some f else lookupCb rest id0

theorem lookupCb_mem {γ : Type} {env : CbEnv γ} {id0 : Nat} {f} :
    lookupCb env id0 = some f → id0 ∈ env.map Prod.fst := by
  induction env with
  | nil => intro h; simp [lookupCb] at h
  | cons hd tl ih =>
    intro h
    simp only [lookupCb] at h
    by_cases hk : hd.1 = id0
    · simp [hk]
    · rw [if_neg hk] at h
      simp [ih h]

theorem lookupCb_none_not_mem {γ : Type} {env : CbEnv γ} {id0 : Nat} :
    lookupCb env id0 = none → id0 ∉ env.map Prod.fst := by
  induction env with
  | nil => intro _; simp
  | cons hd tl ih =>
    intro h
    simp only [lookupCb] at h
    by_cases hk : hd.1 = id0
    · rw [if_pos hk] at h; exact absurd h (by simp)
    · rw [if_neg hk] at h
      simp only [List.map_cons, List.mem_cons]
      rintro (h1 | h1)
      · exact hk h1.symm
      · exact ih h h1

/-! ## normalizeClassName (normalize-class-name.ts) -/

/-- `s.split(/\s+/).filter(Boolean)`: split on whitespace runs, drop empties. -/
def splitWs (s : String) : List String :=
  (s.split Char.isWhitespace).filter (· ≠ "")

/-- `Set.add` on an insertion-ordered string set. -/
def addToken (acc : List String) (t : String) : List String :=
  if t ∈ acc then acc else acc ++ [t]

mutual

/-- Structural size of a class expression, used for termination. -/
def ClassName.size : ClassName → Nat
  | .str _ => 1
  | .nullish => 1
  | .other _ => 1
  | .cb _ => 1
  | .arr items => 1 + ClassName.sizeList items

/-- Total size of a list of class expressions. -/
def ClassName.sizeList : List ClassName → Nat
  | [] => 0
  | x :: xs => ClassName.size x + ClassName.sizeList xs

end

theorem ClassName.sizeList_append (xs ys : List ClassName) :
    ClassName.sizeList (xs ++ ys) = ClassName.sizeList xs + ClassName.sizeList ys := by
  induction xs with
  | nil => simp [ClassName.sizeList]
  | cons x xs ih => simp [ClassName.sizeList, ih]; omega

theorem ClassName.size_pos (c : ClassName) : 0 < c.size := by
  cases c <;> simp [ClassName.size]

/-- Number of callback ids of the environment not yet visited. -/
def unseenCount {γ : Type} (env : CbEnv γ) (seen : List Nat) : Nat :=
  ((env.map Prod.fst).filter (fun i => !seen.contains i)).length

theorem unseen_filter_split {γ : Type} (env : CbEnv γ) (seen : List Nat) (id0 : Nat) :
    (env.map Prod.fst).filter (fun i => !(id0 :: seen).contains i)
      = ((env.map Prod.fst).filter (fun i => !seen.contains i)).filter
          (fun i => !(i == id0)) := by
  rw [List.filter_filter]
  apply List.filter_congr
  intro x _
  show (!(id0 :: seen).contains x) = (!(x == id0) && !seen.contains x)
  rw [List.contains_cons]
  cases x == id0 <;> cases seen.contains x <;> rfl

theorem unseenCount_insert_lt {γ : Type} (env : CbEnv γ) (seen : List Nat) (id0 : Nat)
    (hmem : id0 ∈ env.map Prod.fst) (hnew : ¬ id0 ∈ seen) :
    unseenCount env (id0 :: seen) < unseenCount env seen := by
  unfold unseenCount
  rw [unseen_filter_split]
  have hmemL : id0 ∈ (env.map Prod.fst).filter (fun i => !seen.contains i) :=
    List.mem_filter.mpr ⟨hmem, by simp [hnew]⟩
  have hle := List.length_filter_le (fun i => !(i == id0))
    ((env.map Prod.fst).filter (fun i => !seen.contains i))
  have hne : (((env.map Prod.fst).filter (fun i => !seen.contains i)).filter
      (fun i => !(i == id0))).length
      ≠ ((env.map Prod.fst).filter (fun i => !seen.contains i)).length := by
    intro he
    have hall := List.filter_length_eq_length.mp he id0 hmemL
    simp at hall
  omega

theorem unseenCount_insert_eq {γ : Type} (env : CbEnv γ) (seen : List Nat) (id0 : Nat)
    (hmem : id0 ∉ env.map Prod.fst) :
    unseenCount env (id0 :: seen) = unseenCount env seen := by
  unfold unseenCount
  rw [unseen_filter_split]
  congr 1
  apply List.filter_eq_self.mpr
  intro a ha
  have : a ≠ id0 := fun he => hmem (he ▸ (List.mem_filter.mp ha).1)
  simp [this]

/-- The `while (stack.length > 0)` loop of `normalizeClassName`, carrying the
stack, the seen-callback set and the accumulated token set; returns the token
set together with the final seen set, or the thrown error message. -/
def normLoop {γ : Type} (env : CbEnv γ) (ctx : Option γ) :
    List ClassName → List Nat → List String → Except String (List String × List Nat)
  | [], seen, acc => .ok (acc, seen)
  | item :: rest, seen, acc =>
    match item with
    | .nullish => normLoop env ctx rest seen acc
    | .str s => normLoop env ctx rest seen ((splitWs s).foldl addToken acc)
    | .arr items => normLoop env ctx (items ++ rest) seen acc
    | .other _ => normLoop env ctx rest seen acc
    | .cb id0 =>
      if hseen : id0 ∈ seen then
        -- cyclic callback: warn and skip
        normLoop env ctx rest seen acc
      else
        match hlook : lookupCb env id0 with
        | none => normLoop env ctx rest (id0 :: seen) acc
        | some f =>
          match f ctx with
          | .error e => .error ("[Arto Error]: Error resolving class function: " ++ e)
          | .ok v =>
            if v.truthy then normLoop env ctx (v :: rest) (id0 :: seen) acc
            else normLoop env ctx rest (id0 :: seen) acc
termination_by stack seen _ => (unseenCount env seen, ClassName.sizeList stack)
decreasing_by
  all_goals try (apply Prod.Lex.right
                 try rw [ClassName.sizeList_append]
                 simp [ClassName.sizeList, ClassName.size]
                 try omega)
  · rw [unseenCount_insert_eq env seen id0 (lookupCb_none_not_mem hlook)]
    apply Prod.Lex.right
    simp [ClassName.sizeList, ClassName.size]
  · apply Prod.Lex.left
    exact unseenCount_insert_lt env seen id0 (lookupCb_mem hlook) hseen
  · apply Prod.Lex.left
    exact unseenCount_insert_lt env seen id0 (lookupCb_mem hlook) hseen

/-- `normalizeClassName(classInput, context)`: flattened, deduplicated token
list of a class expression (the callback environment made explicit). -/
def normalizeClassName {γ : Type} (env : CbEnv γ) (classInput : ClassName)
    (ctx : Option γ) : Except String (List String) :=
  (normLoop env ctx [classInput] [] []).map Prod.fst

/-! ## Boolean logic evaluator (variants-plugin.ts, rules part) -/

/-- The five logic operators. -/
inductive LogicOperator : Type where
  | AND | OR | NOT | XOR | IMPLIES
deriving DecidableEq, Repr

/-- `'AND' | 'OR'` in an `ArtoLogicObject`. -/
inductive AndOr : Type where
  | and | or
deriving DecidableEq, Repr

/-- `evaluateSimpleLogic(conditions, op)`: evaluate a boolean list with a
single operator; `op ?? 'AND'`. -/
def evaluateSimpleLogic (conditions : List Bool) (op : Option LogicOperator) : Bool :=
  match op.getD .AND with
  | .AND => conditions.all (fun c => c)
  | .OR => conditions.any (fun c => c)
  | .NOT => conditions.all (fun c => !c)
  | .XOR => (conditions.filter (fun c => c)).length == 1
  | .IMPLIES =>
    match conditions with
    | a :: b :: _ => !a || b
    | _ => true

/-- `ArtoLogicObject`: per-group operators plus the combiner, all optional. -/
structure ArtoLogicObject : Type where
  variants : Option AndOr := none
  states : Option AndOr := none
  combine : Option AndOr := none

/-- `evaluateObjectLogic(variantBooleans, stateBooleans, logicObj)`. -/
def evaluateObjectLogic (variantBooleans stateBooleans : List Bool)
    (logicObj : ArtoLogicObject) : Bool :=
  let variantsOp := logicObj.variants.getD .and
  let statesOp := logicObj.states.getD .and
  let combineOp := logicObj.combine.getD .and
  let variantsPassed :=
    if variantsOp = .and then variantBooleans.all (fun c => c)
    else variantBooleans.any (fun c => c)
  let statesPassed :=
    if statesOp = .and then stateBooleans.all (fun c => c)
    else stateBooleans.any (fun c => c)
  if combineOp = .and then variantsPassed && statesPassed
  else variantsPassed || statesPassed

/-! ## State and variant configuration entries (types/states.ts, types/variants.ts) -/

/-- One entry of a `dependsOn` array: a required-active state name, or a
`{ not: [...] }` wrapper naming states that must not be active. -/
inductive DepEntry : Type where
  | req : String → DepEntry
  | exclude : List String → DepEntry

/-- `StateDependency`: an array of entries, or a predicate over the active
state set and the context. -/
inductive StateDependency (γ : Type) : Type where
  | list : List DepEntry → StateDependency γ
  | fn : (List String → Option γ → Bool) → StateDependency γ

/-- `checkStateDependencies(dependsOn, activeStates, context)` from the states
plugin source. -/
def checkStateDependencies {γ : Type} (dependsOn : Option (StateDependency γ))
    (activeStates : List String) (ctx : Option γ) : Bool :=
  match dependsOn with
  | none => true
  | some (.fn f) => f activeStates ctx
  | some (.list deps) =>
    deps.all fun d =>
      match d with
      | .req s => activeStates.contains s
      | .exclude ss => !(ss.any (activeStates.contains ·))

/-- A value of a `states` map: a plain class expression, or a `StateConfig`
object `{ className, dependsOn? }`. -/
inductive StateEntry (γ : Type) : Type where
  | cls : ClassName → StateEntry γ
  | sconf : ClassName → Option (StateDependency γ) → StateEntry γ

/-- JS truthiness of a state entry (`''` as entry is falsy; objects truthy). -/
def StateEntry.isFalsy {γ : Type} : StateEntry γ → Bool
  | .cls c => !c.truthy
  | .sconf _ _ => false

/-- `isStateConfig`: an object carrying a `className` property. -/
def isStateConfig {γ : Type} : StateEntry γ → Bool
  | .cls _ => false
  | .sconf _ _ => true

/-- `extractStateClassName(config)`: the class expression of a state entry;
throws on an entry that is neither a class expression nor a `StateConfig`. -/
def extractStateClassName {γ : Type} : StateEntry γ → Except String ClassName
  | .sconf c _ => .ok c
  | .cls c =>
    if isClassNameType c then .ok c
    else .error "[Arto Error]: Invalid configuration for className. Expected ClassName or StateConfig."

/-- A value of a variant-value map: a plain class expression, or a
`VariantConfig` object `{ className?, states? }`. -/
inductive VariantEntry (γ : Type) : Type where
  | cls : ClassName → VariantEntry γ
  | vconf : Option ClassName → Option (StrMap (StateEntry γ)) → VariantEntry γ

/-- JS truthiness of a variant entry looked up for a selected value. -/
def VariantEntry.isFalsy {γ : Type} : VariantEntry γ → Bool
  | .cls c => !c.truthy
  | .vconf _ _ => false

/-! ## Rules (types/rules.ts) -/

/-- Metadata handed to a logic callback. -/
structure RuleEvalMeta : Type where
  variantMatches : StrMap Bool
  stateMatches : StrMap Bool
  selectedVariants : StrMap (Option String)
  activeStates : List String

/-- `ArtoLogic`: a bare operator, a logic object, or a callback. -/
inductive ArtoLogic (γ : Type) : Type where
  | op : LogicOperator → ArtoLogic γ
  | obj : ArtoLogicObject → ArtoLogic γ
  | fn : (RuleEvalMeta → Option γ → Bool) → ArtoLogic γ

/-- The `when` section of a rule. -/
structure ArtoRuleWhen (γ : Type) : Type where
  variants : Option (StrMap (List String)) := none
  states : Option (List String) := none
  logic : Option (ArtoLogic γ) := none

/-- `'global' | 'variant' | 'all'`. -/
inductive StatesScope : Type where
  | global | variant | all
deriving DecidableEq, Repr

/-- The `remove` section of a rule. -/
structure ArtoRuleRemove : Type where
  variants : Option (List String) := none
  states : Option (List String) := none
  statesScope : Option StatesScope := none
  base : Bool := false

/-- A single rule: `when` / `remove` / `add`. -/
structure ArtoRule (γ : Type) : Type where
  when : ArtoRuleWhen γ
  remove : Option ArtoRuleRemove := none
  add : Option ClassName := none

/-! ## ArtoConfig (types/arto-config.ts) -/

/-- The main configuration object. -/
structure ArtoConfig (γ : Type) : Type where
  className : Option ClassName := none
  variants : Option (StrMap (StrMap (VariantEntry γ))) := none
  states : Option (StrMap (StateEntry γ)) := none
  rules : Option (List (ArtoRule γ)) := none
  defaultVariants : StrMap (Option String) := []

/-! ## The Bucket Store (`ClassNameBuilder`, source in README.md) -/

/-- The builder's mutable bucket state plus the selection, active-state set
and context it carries. -/
structure Buckets (γ : Type) : Type where
  baseClassNames : List String := []
  variantClassNames : StrMap (List String) := []
  variantStateClassNames : StrMap (StrMap (List String)) := []
  globalStateClassNames : StrMap (List String) := []
  selectedVariants : StrMap (Option String)
  activeStates : List String
  context : Option γ

/-- `selectedVariants[k]` with JS `== null` semantics: absent and explicit
null/undefined both give `none`. -/
def lookupSel (m : StrMap (Option String)) (k : String) : Option String :=
  (getA m k).bind (fun x => x)

/-- `addBaseClasses`. -/
def Buckets.addBaseClasses {γ : Type} (b : Buckets γ) (classNames : List String) : Buckets γ :=
  { b with baseClassNames := b.baseClassNames ++ classNames }

/-- `clearBaseClasses`. -/
def Buckets.clearBaseClasses {γ : Type} (b : Buckets γ) : Buckets γ :=
  { b with baseClassNames := [] }

/-- `addVariantClasses`: creates the bucket on first use, then appends. -/
def Buckets.addVariantClasses {γ : Type} (b : Buckets γ) (variantKey : String)
    (classNames : List String) : Buckets γ :=
  let old := match getA b.variantClassNames variantKey with
    | none => []
    | some l => l
  { b with variantClassNames := setA b.variantClassNames variantKey (old ++ classNames) }

/-- `replaceVariantClasses`. -/
def Buckets.replaceVariantClasses {γ : Type} (b : Buckets γ) (variantKey : String)
    (classNames : List String) : Buckets γ :=
  { b with variantClassNames := setA b.variantClassNames variantKey classNames }

/-- `clearVariantClasses` (`this.variantClassNames[variantKey] = []`, creating
the key when absent). -/
def Buckets.clearVariantClasses {γ : Type} (b : Buckets γ) (variantKey : String) : Buckets γ :=
  { b with variantClassNames := setA b.variantClassNames variantKey [] }

/-- `addGlobalStateClasses`. -/
def Buckets.addGlobalStateClasses {γ : Type} (b : Buckets γ) (state : String)
    (classNames : List String) : Buckets γ :=
  let old := match getA b.globalStateClassNames state with
    | none => []
    | some l => l
  { b with globalStateClassNames := setA b.globalStateClassNames state (old ++ classNames) }

/-- `replaceGlobalStateClasses`. -/
def Buckets.replaceGlobalStateClasses {γ : Type} (b : Buckets γ) (state : String)
    (classNames : List String) : Buckets γ :=
  { b with globalStateClassNames := setA b.globalStateClassNames state classNames }

/-- `clearGlobalStateClasses`. -/
def Buckets.clearGlobalStateClasses {γ : Type} (b : Buckets γ) (state : String) : Buckets γ :=
  { b with globalStateClassNames := setA b.globalStateClassNames state [] }

/-- `getGlobalStateClassesFor`. -/
def Buckets.getGlobalStateClassesFor {γ : Type} (b : Buckets γ) (state : String) : List String :=
  (getA b.globalStateClassNames state).getD []

/-- `addVariantStateClasses`: creates the nested maps on first use, appends. -/
def Buckets.addVariantStateClasses {γ : Type} (b : Buckets γ) (variantKey state : String)
    (classNames : List String) : Buckets γ :=
  let outer := match getA b.variantStateClassNames variantKey with
    | none => []
    | some m => m
  let inner := match getA outer state with
    | none => []
    | some l => l
  let updated := setA b.variantStateClassNames variantKey (setA outer state (inner ++ classNames))
  { b with variantStateClassNames := updated }

/-- `replaceVariantStateClasses`. -/
def Buckets.replaceVariantStateClasses {γ : Type} (b : Buckets γ) (variantKey state : String)
    (classNames : List String) : Buckets γ :=
  let outer := match getA b.variantStateClassNames variantKey with
    | none => []
    | some m => m
  let updated := setA b.variantStateClassNames variantKey (setA outer state classNames)
  { b with variantStateClassNames := updated }

/-- `clearVariantStateClasses`: only touches an existing variant-level map. -/
def Buckets.clearVariantStateClasses {γ : Type} (b : Buckets γ) (variantKey state : String) :
    Buckets γ :=
  match getA b.variantStateClassNames variantKey with
  | none => b
  | some outer =>
    let updated := setA b.variantStateClassNames variantKey (setA outer state [])
    { b with variantStateClassNames := updated }

/-- `getVariantStateClasses`. -/
def Buckets.getVariantStateClasses {γ : Type} (b : Buckets γ) (variantKey state : String) :
    List String :=
  ((getA b.variantStateClassNames variantKey).bind (fun m => getA m state)).getD []

/-- Step 6 of `build()`: collect all classes in a final list, pushing the base
bucket, every variant bucket, every variant-level state bucket restricted to
active states, and every global-state bucket, in that order. -/
def Buckets.finalClassList {γ : Type} (b : Buckets γ) : List String :=
  let l1 : List String := [] ++ b.baseClassNames
  let l2 := b.variantClassNames.foldl (fun acc kv => acc ++ kv.2) l1
  let l3 := b.variantStateClassNames.foldl (fun acc kv =>
    b.activeStates.foldl (fun acc2 st =>
      match getA kv.2 st with
      | some classes => acc2 ++ classes
      | none => acc2) acc) l2
  b.globalStateClassNames.foldl (fun acc kv => acc ++ kv.2) l3

/-! ## Plugins and the staged pipeline -/

/-- `PluginStage`: 'before' | 'core' | 'after'. -/
inductive PluginStage : Type where
  | before | core | after
deriving DecidableEq, Repr

/-- `ClassNameBuilder.stagePriority`. -/
def stagePriority : PluginStage → Nat
  | .before => 0
  | .core => 1
  | .after => 2

/-- The builder state a plugin's `apply` receives: the configuration, the
buckets, and the two deferred-callback queues. -/
structure BuilderState (γ : Type) : Type where
  artoConfig : ArtoConfig γ
  buckets : Buckets γ
  postCoreCallbacks : List (Buckets γ → Buckets γ) := []
  finalBuildCallbacks : List (Buckets γ → Buckets γ) := []

/-- `addPostCoreCallback`. -/
def BuilderState.addPostCoreCallback {γ : Type} (st : BuilderState γ)
    (callback : Buckets γ → Buckets γ) : BuilderState γ :=
  { st with postCoreCallbacks := st.postCoreCallbacks ++ [callback] }

/-- `addFinalBuildCallback`. -/
def BuilderState.addFinalBuildCallback {γ : Type} (st : BuilderState γ)
    (callback : Buckets γ → Buckets γ) : BuilderState γ :=
  { st with finalBuildCallbacks := st.finalBuildCallbacks ++ [callback] }

/-- A plugin: id, optional stage, optional order, and an `apply` that may
throw. -/
structure Plugin (γ : Type) : Type where
  id : String
  stage : Option PluginStage := none
  order : Option Int := none
  apply : BuilderState γ → Except String (BuilderState γ)

/-- The constructor's default filling: missing stage becomes 'core', missing
order becomes 0. -/
def normalizePlugin {γ : Type} (p : Plugin γ) : Plugin γ :=
  { p with stage := some (p.stage.getD .core), order := some (p.order.getD 0) }

/-- The sort comparator of the constructor: stage priority first, then order
(`a` comes no later than `b`). -/
def pluginLE {γ : Type} (a b : Plugin γ) : Bool :=
  decide (stagePriority (a.stage.getD .core) < stagePriority (b.stage.getD .core))
  || (decide (stagePriority (a.stage.getD .core) = stagePriority (b.stage.getD .core))
      && decide (a.order.getD 0 ≤ b.order.getD 0))

/-- Constructor normalization followed by the stable sort (`Array.sort` is
stable per the ECMAScript specification; `mergeSort` is the stable sort). -/
def sortPlugins {γ : Type} (plugins : List (Plugin γ)) : List (Plugin γ) :=
  List.mergeSort (plugins.map normalizePlugin) pluginLE

/-- One stage of `build()`: run every plugin whose stage matches, in list
order. -/
def runStage {γ : Type} (stage : PluginStage) :
    List (Plugin γ) → BuilderState γ → Except String (BuilderState γ)
  | [], st => .ok st
  | p :: rest, st =>
    if p.stage = some stage then
      match p.apply st with
      | .error e => .error e
      | .ok st' => runStage stage rest st'
    else runStage stage rest st

/-- Flush a deferred-callback queue in registration order. -/
def runCallbacks {γ : Type} (callbacks : List (Buckets γ → Buckets γ)) (b : Buckets γ) :
    Buckets γ :=
  callbacks.foldl (fun b cb => cb b) b

/-- A constructed builder: initial state plus the sorted plugin list. -/
structure ClassNameBuilder (γ : Type) : Type where
  state : BuilderState γ
  allPlugins : List (Plugin γ)

/-- The `ClassNameBuilder` constructor. -/
def ClassNameBuilder.new {γ : Type} (artoConfig : ArtoConfig γ)
    (selectedVariants : StrMap (Option String)) (activeStates : List String)
    (context : Option γ) (plugins : List (Plugin γ)) : ClassNameBuilder γ :=
  { state :=
      { artoConfig := artoConfig
        buckets :=
          { baseClassNames := []
            variantClassNames := []
            variantStateClassNames := []
            globalStateClassNames := []
            selectedVariants := selectedVariants
            activeStates := activeStates
            context := context } }
    allPlugins := sortPlugins plugins }

/-- Steps 1–5 of `build()`: 'before' plugins, 'core' plugins, post-core
callbacks, 'after' plugins, final-build callbacks. -/
def ClassNameBuilder.runPipeline {γ : Type} (cb : ClassNameBuilder γ) :
    Except String (Buckets γ) := do
  let st1 ← runStage .before cb.allPlugins cb.state
  let st2 ← runStage .core cb.allPlugins st1
  let st3 : BuilderState γ := { st2 with buckets := runCallbacks st2.postCoreCallbacks st2.buckets }
  let st4 ← runStage .after cb.allPlugins st3
  .ok (runCallbacks st4.finalBuildCallbacks st4.buckets)

/-- `build()`: run the pipeline, then combine all class buckets. -/
def ClassNameBuilder.build {γ : Type} (cb : ClassNameBuilder γ) :
    Except String (List String) :=
  cb.runPipeline.map Buckets.finalClassList

/-! ## Built-in plugins -/

/-- `BaseClassNamePlugin.apply`: normalize the top-level `className` (when
truthy) and append to the base bucket. -/
def baseClassNameApply {γ : Type} (env : CbEnv γ) (st : BuilderState γ) :
    Except String (BuilderState γ) :=
  match st.artoConfig.className with
  | none => .ok st
  | some c =>
    if c.truthy then
      match normalizeClassName env c st.buckets.context with
      | .error e => .error e
      | .ok baseClassList => .ok { st with buckets := st.buckets.addBaseClasses baseClassList }
    else .ok st

/-- `new BaseClassNamePlugin(order)`. -/
def BaseClassNamePlugin {γ : Type} (env : CbEnv γ) (order : Int := 0) : Plugin γ :=
  { id := "arto/Internal/AddBaseClassesPlugin"
    stage := some .core
    order := some order
    apply := baseClassNameApply env }

/-- `VariantsPlugin.mergeVariantStates`: variant-level states; a plain class
expression is appended to the (variant,state) bucket, a `StateConfig` has its
dependency checked against the global active-state set and, when met,
**replaces** the (variant,state) bucket. -/
def mergeVariantStates {γ : Type} (env : CbEnv γ) (variantKey : String)
    (statesObj : StrMap (StateEntry γ)) (st : BuilderState γ) :
    Except String (BuilderState γ) :=
  let activeStates := st.buckets.activeStates
  statesObj.foldlM (fun st kv =>
    let stateName := kv.1
    let stateInput := kv.2
    if stateInput.isFalsy then .ok st
    else
      match stateInput with
      | .cls c =>
        if isClassNameType c then
          match normalizeClassName env c st.buckets.context with
          | .error e => .error e
          | .ok classList =>
            .ok { st with buckets := st.buckets.addVariantStateClasses variantKey stateName classList }
        else .error ("[Arto Error]: Invalid state config for state '" ++ stateName ++ "' ...")
      | .sconf c dep =>
        if !checkStateDependencies dep activeStates st.buckets.context then .ok st
        else
          match normalizeClassName env c st.buckets.context with
          | .error e => .error e
          | .ok newClassList =>
            .ok { st with buckets := st.buckets.replaceVariantStateClasses variantKey stateName newClassList }) st

/-- `VariantsPlugin.processVariantConfig`: a plain class expression is
normalized directly; a `VariantConfig` contributes its `className` (when
truthy) and merges its nested `states`. -/
def processVariantConfig {γ : Type} (env : CbEnv γ) (variantKey : String)
    (variantConfig : VariantEntry γ) (st : BuilderState γ) :
    Except String (List String × BuilderState γ) :=
  match variantConfig with
  | .cls c =>
    if isClassNameType c then
      match normalizeClassName env c st.buckets.context with
      | .error e => .error e
      | .ok l => .ok (l, st)
    else .error "[Arto Error]: Invalid variant configuration item encountered."
  | .vconf classNameOpt statesOpt => do
    let classes ← match classNameOpt with
      | some c => if c.truthy then normalizeClassName env c st.buckets.context else pure []
      | none => pure []
    let st' ← match statesOpt with
      | some statesObj => mergeVariantStates env variantKey statesObj st
      | none => pure st
    pure (classes, st')

/-- `VariantsPlugin.apply`: for each declared variant key with a non-null
selection, look up the entry for the selected value (a falsy lookup throws
the invalid-value error), process it, and append to the variant bucket. -/
def variantsApply {γ : Type} (env : CbEnv γ) (st : BuilderState γ) :
    Except String (BuilderState γ) :=
  match st.artoConfig.variants with
  | none => .ok st
  | some variants =>
    variants.foldlM (fun st kv =>
      let variantKey := kv.1
      let variantOptions := kv.2
      match lookupSel st.buckets.selectedVariants variantKey with
      | none => .ok st
      | some userChosenValue =>
        let entry := getA variantOptions userChosenValue
        match entry with
        | none =>
          .error ("[Arto Error]: Invalid value '" ++ userChosenValue ++ "' for variant '"
            ++ variantKey ++ "'.")
        | some variantConfig =>
          if variantConfig.isFalsy then
            .error ("[Arto Error]: Invalid value '" ++ userChosenValue ++ "' for variant '"
              ++ variantKey ++ "'.")
          else
            match processVariantConfig env variantKey variantConfig st with
            | .error e => .error e
            | .ok (variantClassList, st') =>
              .ok { st' with buckets := st'.buckets.addVariantClasses variantKey variantClassList }) st

/-- `new VariantsPlugin(order)`. -/
def VariantsPlugin {γ : Type} (env : CbEnv γ) (order : Int := 0) : Plugin γ :=
  { id := "arto/Internal/ApplyVariantClassesPlugin"
    stage := some .core
    order := some order
    apply := variantsApply env }

/-- The `dependsOn` field of a state entry. -/
def StateEntry.dependsOn {γ : Type} : StateEntry γ → Option (StateDependency γ)
  | .cls _ => none
  | .sconf _ dep => dep

/-- Loop body of `StatesPlugin.apply` for one active state: skip an
undeclared or falsy entry, skip a `StateConfig` with unmet dependency,
otherwise normalize the entry's class expression and append it to the global
state bucket. -/
def statesStep {γ : Type} (env : CbEnv γ) (stateConfigs : StrMap (StateEntry γ))
    (activeStates : List String) (st : BuilderState γ) (state : String) :
    Except String (BuilderState γ) :=
  match getA stateConfigs state with
  | none => .ok st
  | some stateConfig =>
    if stateConfig.isFalsy then .ok st
    else if isStateConfig stateConfig
        && !checkStateDependencies stateConfig.dependsOn activeStates st.buckets.context then
      .ok st
    else
      match extractStateClassName stateConfig with
      | .error e => .error e
      | .ok cn =>
        match normalizeClassName env cn st.buckets.context with
        | .error e => .error e
        | .ok newClassNames =>
          .ok { st with buckets := st.buckets.addGlobalStateClasses state newClassNames }

/-- `StatesPlugin.apply`: run the step for each active state in order. -/
def statesApply {γ : Type} (env : CbEnv γ) (stateConfigs : StrMap (StateEntry γ))
    (st : BuilderState γ) : Except String (BuilderState γ) :=
  let activeStates := st.buckets.activeStates
  activeStates.foldlM (statesStep env stateConfigs activeStates) st

/-- `new StatesPlugin(stateConfigs, order)`. -/
def StatesPlugin {γ : Type} (env : CbEnv γ) (stateConfigs : StrMap (StateEntry γ))
    (order : Int := 0) : Plugin γ :=
  { id := "arto/Internal/ApplyStateClassesPlugin"
    stage := some .core
    order := some order
    apply := statesApply env stateConfigs }

/-! ## Rules plugin -/

/-- `RulesPlugin.doesRuleApply`. -/
def doesRuleApply {γ : Type} (w : ArtoRuleWhen γ) (selectedVariants : StrMap (Option String))
    (activeStates : List String) (ctx : Option γ) : Bool :=
  let variantMatches : StrMap Bool :=
    match w.variants with
    | none => []
    | some wvariants =>
      wvariants.foldl (fun acc kv =>
        let userValue := lookupSel selectedVariants kv.1
        let matched := match userValue with
          | some v => kv.2.contains v
          | none => false
        setA acc kv.1 matched) []
  let stateMatches : StrMap Bool :=
    match w.states with
    | none => []
    | some wstates =>
      wstates.foldl (fun acc st => setA acc st (activeStates.contains st)) []
  let allBools := variantMatches.map Prod.snd ++ stateMatches.map Prod.snd
  match w.logic with
  | none => evaluateSimpleLogic allBools (some .AND)
  | some (.op o) => evaluateSimpleLogic allBools (some o)
  | some (.obj logicObj) =>
    evaluateObjectLogic (variantMatches.map Prod.snd) (stateMatches.map Prod.snd) logicObj
  | some (.fn f) =>
    f { variantMatches := variantMatches
        stateMatches := stateMatches
        selectedVariants := selectedVariants
        activeStates := activeStates } ctx

/-- `RulesPlugin.removeStuff`. -/
def removeStuff {γ : Type} (remove : ArtoRuleRemove) (b : Buckets γ) : Buckets γ :=
  let b := match remove.variants with
    | some vs => vs.foldl Buckets.clearVariantClasses b
    | none => b
  let b := match remove.states with
    | some sts =>
      let scope := remove.statesScope.getD .all
      sts.foldl (fun b st =>
        let b := if scope = .all || scope = .global then b.clearGlobalStateClasses st else b
        if scope = .all || scope = .variant then
          (b.selectedVariants.map Prod.fst).foldl (fun b vKey => b.clearVariantStateClasses vKey st) b
        else b) b
    | none => b
  if remove.base then b.clearBaseClasses else b

/-- The body of `RulesPlugin.apply` for one rule: when the `when` conditions
pass, apply `remove` then normalize `add` and append it to the base bucket. -/
def applyRule {γ : Type} (env : CbEnv γ) (st : BuilderState γ) (rule : ArtoRule γ) :
    Except String (BuilderState γ) :=
  if doesRuleApply rule.when st.buckets.selectedVariants st.buckets.activeStates
      st.buckets.context then
    let b := match rule.remove with
      | some remove => removeStuff remove st.buckets
      | none => st.buckets
    match rule.add with
    | some add =>
      if add.truthy then
        match normalizeClassName env add st.buckets.context with
        | .error e => .error e
        | .ok newClassNames => .ok { st with buckets := b.addBaseClasses newClassNames }
      else .ok { st with buckets := b }
    | none => .ok { st with buckets := b }
  else .ok st

/-- `RulesPlugin.apply`: apply each rule in declaration order. -/
def rulesApply {γ : Type} (env : CbEnv γ) (st : BuilderState γ) :
    Except String (BuilderState γ) :=
  match st.artoConfig.rules with
  | none => .ok st
  | some rules => rules.foldlM (applyRule env) st

/-- `new RulesPlugin(order)`. -/
def RulesPlugin {γ : Type} (env : CbEnv γ) (order : Int := 0) : Plugin γ :=
  { id := "arto/Internal/RulesPlugin"
    stage := some .core
    order := some order
    apply := rulesApply env }

/-! ## Pre-pipeline helpers (utils) and the `arto` entry point -/

/-- `safeMergeDefaults(defaults, userVariants)`: shallow merge where a user
value of null/undefined keeps the default. -/
def safeMergeDefaults (defaults userVariants : StrMap (Option String)) :
    StrMap (Option String) :=
  userVariants.foldl (fun final kv =>
    match kv.2 with
    | some v => setA final kv.1 (some v)
    | none => final) defaults

/-- A JS value in a state-boolean map: a boolean, or something else. -/
inductive JsVal : Type where
  | bool : Bool → JsVal
  | other : JsVal
deriving DecidableEq, Repr

/-- `collectTrueKeys(record)`: the keys whose value is strictly `true`. -/
def collectTrueKeys (record : Option (List (String × JsVal))) : List String :=
  match record with
  | none => []
  | some r => (r.filter (fun kv => kv.2 == JsVal.bool true)).map Prod.fst

/-- The caller-supplied options of one resolution call. -/
structure ArtoOptions : Type where
  variants : StrMap (Option String) := []
  states : List (String × JsVal) := []

/-- The function returned by `arto(config, plugins)` applied to `options`
(arto.ts): merge defaults, collect active states, assemble local + global +
internal plugins, build, and join with spaces. -/
def arto {γ : Type} (config : ArtoConfig γ) (env : CbEnv γ)
    (plugins globalPlugins : List (Plugin γ)) (options : ArtoOptions)
    (ctx : Option γ) : Except String String :=
  let variants := options.variants
  let defaultVariants := config.defaultVariants
  let states := options.states
  let selectedVariants := safeMergeDefaults defaultVariants variants
  let activeStates := collectTrueKeys (some states)
  let allPlugins := plugins ++ globalPlugins
  let internalPlugins : List (Plugin γ) :=
    (match config.className with
      | some c => if c.truthy then [BaseClassNamePlugin env] else []
      | none => [])
    ++ (match config.variants with
      | some _ => [VariantsPlugin env]
      | none => [])
    ++ (match config.states with
      | some stateConfigs => [StatesPlugin env stateConfigs]
      | none => [])
    ++ (match config.rules with
      | some rules => if rules.length > 0 then [RulesPlugin env 3] else []
      | none => [])
  let mergedPlugins := allPlugins ++ internalPlugins
  let builder := ClassNameBuilder.new config selectedVariants activeStates ctx mergedPlugins
  builder.build.map (String.intercalate " ")

/-! ## General association-map lemmas -/

theorem getA_setA_self {α : Type} (m : StrMap α) (k : String) (v : α) :
    getA (setA m k v) k = some v := by
  induction m with
  | nil => simp [setA, getA]
  | cons hd tl ih =>
    by_cases h : hd.1 = k
    · simp [setA, getA, h]
    · simp [setA, getA, h, ih]

theorem getA_setA_ne {α : Type} (m : StrMap α) (k' k : String) (v : α) (h : k' ≠ k) :
    getA (setA m k' v) k = getA m k := by
  induction m with
  | nil => simp [setA, getA, h]
  | cons hd tl ih =>
    by_cases h1 : hd.1 = k'
    · simp [setA, getA, h1, h]
    · by_cases h2 : hd.1 = k <;> simp [setA, getA, h1, h2, Ne.symm h, ih]

theorem getA_eq_none_iff {α : Type} (m : StrMap α) (k : String) :
    getA m k = none ↔ k ∉ m.map Prod.fst := by
  induction m with
  | nil => simp [getA]
  | cons hd tl ih =>
    simp only [getA, List.map_cons, List.mem_cons]
    by_cases h : hd.1 = k
    · simp [h]
    · rw [if_neg h, ih]
      constructor
      · intro hn
        rintro (h1 | h1)
        · exact h h1.symm
        · exact hn h1
      · intro hn h1
        exact hn (Or.inr h1)

/-! ## Claim C5: evaluateSimpleLogic -/

/-- C5: `evaluateSimpleLogic` — with the operator omitted or `'AND'` it is true
iff every entry is true (hence true on the empty list); `'OR'` is true iff some
entry is true (false on empty); `'NOT'` is true iff every entry is false;
`'XOR'` is true iff exactly one entry is true; `'IMPLIES'` is true whenever
fewer than two entries are given and otherwise equals `!a || b` on the first
two entries, ignoring the rest; in particular
`evaluateSimple([true,false,true],'IMPLIES') = false` and
`evaluateSimple([true,false],'XOR') = true`. -/
theorem C5_evaluateSimpleLogic_operators :
    (∀ l : List Bool, evaluateSimpleLogic l none = l.all (fun c => c))
    ∧ (∀ l : List Bool, evaluateSimpleLogic l (some .AND) = l.all (fun c => c))
    ∧ (∀ l : List Bool, evaluateSimpleLogic l (some .OR) = l.any (fun c => c))
    ∧ (∀ l : List Bool, evaluateSimpleLogic l (some .NOT) = l.all (fun c => !c))
    ∧ (∀ l : List Bool, evaluateSimpleLogic l (some .XOR) = true ↔ l.count true = 1)
    ∧ (∀ l : List Bool, l.length < 2 → evaluateSimpleLogic l (some .IMPLIES) = true)
    ∧ (∀ (a b : Bool) (rest : List Bool),
        evaluateSimpleLogic (a :: b :: rest) (some .IMPLIES) = (!a || b))
    ∧ evaluateSimpleLogic [true, false, true] (some .IMPLIES) = false
    ∧ evaluateSimpleLogic [true, false] (some .XOR) = true
    ∧ evaluateSimpleLogic [] (some .AND) = true
    ∧ evaluateSimpleLogic [] (some .OR) = false := by
  refine ⟨fun l => rfl, fun l => rfl, fun l => rfl, fun l => rfl, ?_, ?_, ?_, rfl, rfl, rfl, rfl⟩
  · intro l
    have hfilter : l.filter (fun c => c) = l.filter (fun c => c == true) := by
      apply List.filter_congr
      intro x _
      cases x <;> rfl
    simp only [evaluateSimpleLogic, Option.getD, hfilter]
    rw [List.count, List.countP_eq_length_filter]
    simp [beq_iff_eq]
  · intro l h
    match l with
    | [] => rfl
    | [a] => rfl
    | a :: b :: rest => simp only [List.length_cons] at h; omega
  · intro a b rest
    rfl

/-- Witness for C5 at concrete inputs: the singleton list has length below two
and IMPLIES evaluates to true on it. -/
theorem C5_evaluateSimpleLogic_operators_witness :
    ([true] : List Bool).length < 2 ∧ evaluateSimpleLogic [true] (some .IMPLIES) = true :=
  ⟨by decide, C5_evaluateSimpleLogic_operators.2.2.2.2.2.1 [true] (by decide)⟩

/-! ## Claim C8: selection merging and active-state collection -/

theorem safeMergeDefaults_cons (d : StrMap (Option String)) (hd : String × Option String)
    (tl : StrMap (Option String)) :
    safeMergeDefaults d (hd :: tl)
      = safeMergeDefaults (match hd.2 with
          | some v => setA d hd.1 (some v)
          | none => d) tl := rfl

theorem safeMergeDefaults_not_mem (d user : StrMap (Option String)) (k : String)
    (h : k ∉ user.map Prod.fst) :
    getA (safeMergeDefaults d user) k = getA d k := by
  induction user generalizing d with
  | nil => rfl
  | cons hd tl ih =>
    rw [safeMergeDefaults_cons]
    simp only [List.map_cons, List.mem_cons] at h
    push_neg at h
    cases hv : hd.2 with
    | some v =>
      rw [ih _ h.2]
      exact getA_setA_ne d hd.1 k (some v) (fun he => h.1 he.symm)
    | none => exact ih d h.2

/-- C8: the selection passed to the Bucket Store is the shallow merge of the
configured `defaultVariants` with the caller's variants, where a caller value
of null/undefined keeps the default and any other value overrides it; and the
active-state set contains exactly the keys of the caller's state map whose
value is strictly `true`. -/
theorem C8_selection_and_active_states :
    (∀ (defaults user : StrMap (Option String)) (k v : String),
        (user.map Prod.fst).Nodup →
        getA user k = some (some v) →
        getA (safeMergeDefaults defaults user) k = some (some v))
    ∧ (∀ (defaults user : StrMap (Option String)) (k : String),
        (user.map Prod.fst).Nodup →
        getA user k = some none →
        getA (safeMergeDefaults defaults user) k = getA defaults k)
    ∧ (∀ (defaults user : StrMap (Option String)) (k : String),
        getA user k = none →
        getA (safeMergeDefaults defaults user) k = getA defaults k)
    ∧ (∀ (record : List (String × JsVal)) (s : String),
        (record.map Prod.fst).Nodup →
        (s ∈ collectTrueKeys (some record) ↔ getA record s = some (JsVal.bool true))) := by
  refine ⟨?_, ?_, ?_, ?_⟩
  · intro defaults user k v hnd hget
    induction user generalizing defaults with
    | nil => simp [getA] at hget
    | cons hd tl ih =>
      rw [safeMergeDefaults_cons]
      simp only [List.map_cons, List.nodup_cons] at hnd
      by_cases hk : hd.1 = k
      · have h2 : hd.2 = some v := by
          simp only [getA, hk, if_pos] at hget
          exact Option.some.inj hget
        rw [h2]
        rw [safeMergeDefaults_not_mem _ tl k (hk ▸ hnd.1)]
        exact hk ▸ getA_setA_self defaults hd.1 (some v)
      · have hget' : getA tl k = some (some v) := by
          simp only [getA, hk, if_neg, reduceIte] at hget
          exact hget
        cases hv : hd.2 with
        | some w => exact ih _ hnd.2 hget'
        | none => exact ih _ hnd.2 hget'
  · intro defaults user k hnd hget
    induction user generalizing defaults with
    | nil => simp [getA] at hget
    | cons hd tl ih =>
      rw [safeMergeDefaults_cons]
      simp only [List.map_cons, List.nodup_cons] at hnd
      by_cases hk : hd.1 = k
      · have h2 : hd.2 = none := by
          simp only [getA, hk, if_pos] at hget
          exact Option.some.inj hget
        rw [h2]
        exact safeMergeDefaults_not_mem _ tl k (hk ▸ hnd.1)
      · have hget' : getA tl k = some none := by
          simp only [getA, hk, if_neg, reduceIte] at hget
          exact hget
        cases hv : hd.2 with
        | some w =>
          rw [ih (setA defaults hd.1 (some w)) hnd.2 hget']
          exact getA_setA_ne defaults hd.1 k (some w) hk
        | none => exact ih defaults hnd.2 hget'
  · intro defaults user k hget
    exact safeMergeDefaults_not_mem defaults user k ((getA_eq_none_iff user k).mp hget)
  · intro record s hnd
    induction record with
    | nil => simp [collectTrueKeys, getA]
    | cons hd tl ih =>
      simp only [List.map_cons, List.nodup_cons] at hnd
      by_cases hk : hd.1 = s
      · subst hk
        simp only [getA, if_pos rfl]
        by_cases ht : hd.2 = JsVal.bool true
        · simp [collectTrueKeys, List.filter_cons, ht]
        · have : (hd.2 == JsVal.bool true) = false := by
            simp [ht]
          simp only [collectTrueKeys, List.filter_cons, this]
          constructor
          · intro hmem
            exfalso
            apply hnd.1
            rcases List.mem_map.mp hmem with ⟨p, hp, hfst⟩
            have hp' : p ∈ tl := (List.mem_filter.mp hp).1
            exact hfst ▸ List.mem_map_of_mem Prod.fst hp'
          · intro he
            exact absurd (Option.some.inj he) ht
      · have hrec := ih hnd.2
        simp only [getA, if_neg hk]
        rw [← hrec]
        show s ∈ collectTrueKeys (some (hd :: tl)) ↔ s ∈ collectTrueKeys (some tl)
        simp only [collectTrueKeys, List.filter_cons]
        cases ht : (hd.2 == JsVal.bool true)
        · simp
        · simp only [if_pos, List.map_cons, List.mem_cons]
          constructor
          · rintro (he | hm)
            · exact absurd he.symm hk
            · exact hm
          · exact fun hm => Or.inr hm

/-- Witness for C8: concrete merges and a concrete active-state lookup. -/
theorem C8_selection_and_active_states_witness :
    getA (safeMergeDefaults [("size", some "sm")] [("size", none), ("color", some "red")])
      "color" = some (some "red")
    ∧ getA (safeMergeDefaults [("size", some "sm")] [("size", none), ("color", some "red")])
      "size" = some (some "sm")
    ∧ ("on" ∈ collectTrueKeys (some [("on", JsVal.bool true), ("off", JsVal.bool false)])
        ↔ getA [("on", JsVal.bool true), ("off", JsVal.bool false)] "on"
            = some (JsVal.bool true)) :=
  ⟨C8_selection_and_active_states.1 [("size", some "sm")]
      [("size", none), ("color", some "red")] "color" "red" (by decide) (by decide),
   by
     have := C8_selection_and_active_states.2.1 [("size", some "sm")]
       [("size", none), ("color", some "red")] "size" (by decide) (by decide)
     rw [this]
     decide,
   C8_selection_and_active_states.2.2.2 [("on", JsVal.bool true), ("off", JsVal.bool false)]
     "on" (by decide)⟩

/-! ## Claim C3: normalization is depth-first flatten + whitespace split +
first-occurrence dedup -/

theorem normLoop_nil {γ : Type} (env : CbEnv γ) (ctx : Option γ) (seen : List Nat)
    (acc : List String) : normLoop env ctx [] seen acc = .ok (acc, seen) := by
  simp [normLoop]

theorem normLoop_str {γ : Type} (env : CbEnv γ) (ctx : Option γ) (s : String)
    (rest : List ClassName) (seen : List Nat) (acc : List String) :
    normLoop env ctx (.str s :: rest) seen acc
      = normLoop env ctx rest seen ((splitWs s).foldl addToken acc) := by
  simp [normLoop]

theorem normLoop_arr {γ : Type} (env : CbEnv γ) (ctx : Option γ) (items rest : List ClassName)
    (seen : List Nat) (acc : List String) :
    normLoop env ctx (.arr items :: rest) seen acc
      = normLoop env ctx (items ++ rest) seen acc := by
  simp [normLoop]

theorem normLoop_nullish {γ : Type} (env : CbEnv γ) (ctx : Option γ) (rest : List ClassName)
    (seen : List Nat) (acc : List String) :
    normLoop env ctx (.nullish :: rest) seen acc = normLoop env ctx rest seen acc := by
  simp [normLoop]

theorem normLoop_other {γ : Type} (env : CbEnv γ) (ctx : Option γ) (b : Bool)
    (rest : List ClassName) (seen : List Nat) (acc : List String) :
    normLoop env ctx (.other b :: rest) seen acc = normLoop env ctx rest seen acc := by
  simp [normLoop]

theorem normLoop_cb_seen {γ : Type} (env : CbEnv γ) (ctx : Option γ) (id0 : Nat)
    (rest : List ClassName) (seen : List Nat) (acc : List String) (h : id0 ∈ seen) :
    normLoop env ctx (.cb id0 :: rest) seen acc = normLoop env ctx rest seen acc := by
  simp [normLoop, h]

theorem normLoop_cb_new_none {γ : Type} (env : CbEnv γ) (ctx : Option γ) (id0 : Nat)
    (rest : List ClassName) (seen : List Nat) (acc : List String) (h : id0 ∉ seen)
    (hl : lookupCb env id0 = none) :
    normLoop env ctx (.cb id0 :: rest) seen acc
      = normLoop env ctx rest (id0 :: seen) acc := by
  rw [normLoop]
  simp only [h, reduceDIte]
  split
  · rfl
  · rename_i f heq
    rw [hl] at heq
    exact absurd heq (by simp)

theorem normLoop_cb_new_some {γ : Type} (env : CbEnv γ) (ctx : Option γ) (id0 : Nat)
    (rest : List ClassName) (seen : List Nat) (acc : List String) (h : id0 ∉ seen)
    {f : Option γ → Except String ClassName} (hl : lookupCb env id0 = some f) :
    normLoop env ctx (.cb id0 :: rest) seen acc
      = match f ctx with
        | .error e => .error ("[Arto Error]: Error resolving class function: " ++ e)
        | .ok v =>
          if v.truthy then normLoop env ctx (v :: rest) (id0 :: seen) acc
          else normLoop env ctx rest (id0 :: seen) acc := by
  rw [normLoop]
  simp only [h, reduceDIte]
  split
  · rename_i heq
    rw [hl] at heq
    exact absurd heq (by simp)
  · rename_i g heq
    rw [hl] at heq
    cases Option.some.inj heq
    rfl

mutual

/-- Specification-side token sequence of a callback-free class expression:
strings split on whitespace, arrays flattened depth-first left-to-right. -/
def pureTokens : ClassName → List String
  | .str s => splitWs s
  | .arr items => pureTokensList items
  | .cb _ => []
  | .nullish => []
  | .other _ => []

/-- Token sequence of a list of class expressions, left to right. -/
def pureTokensList : List ClassName → List String
  | [] => []
  | x :: xs => pureTokens x ++ pureTokensList xs

end

mutual

/-- A class expression with no callbacks anywhere. -/
def cbFree : ClassName → Bool
  | .str _ => true
  | .arr items => cbFreeList items
  | .cb _ => false
  | .nullish => true
  | .other _ => true

/-- A list of class expressions with no callbacks anywhere. -/
def cbFreeList : List ClassName → Bool
  | [] => true
  | x :: xs => cbFree x && cbFreeList xs

end

theorem pureTokensList_append (xs ys : List ClassName) :
    pureTokensList (xs ++ ys) = pureTokensList xs ++ pureTokensList ys := by
  induction xs with
  | nil => simp [pureTokensList]
  | cons x xs ih => simp [pureTokensList, ih]

theorem cbFreeList_append {xs ys : List ClassName} (hx : cbFreeList xs = true)
    (hy : cbFreeList ys = true) : cbFreeList (xs ++ ys) = true := by
  induction xs with
  | nil => simpa using hy
  | cons x xs ih =>
    simp only [cbFreeList, Bool.and_eq_true] at hx ⊢
    exact ⟨hx.1, ih hx.2⟩

/-- First-occurrence deduplication (the `Set` in `normalizeClassName`). -/
def dedupFirst (l : List String) : List String := l.foldl addToken []

/-- On a callback-free stack, the normalization loop folds the depth-first
token sequence into the accumulator and leaves the seen set unchanged. -/
theorem normLoop_pure {γ : Type} (env : CbEnv γ) (ctx : Option γ) (stack : List ClassName)
    (seen : List Nat) (acc : List String) (h : cbFreeList stack = true) :
    normLoop env ctx stack seen acc
      = .ok ((pureTokensList stack).foldl addToken acc, seen) := by
  match stack with
  | [] => simp [normLoop_nil, pureTokensList]
  | .str s :: rest =>
    simp only [cbFreeList, cbFree, Bool.true_and] at h
    rw [normLoop_str, normLoop_pure env ctx rest seen _ h]
    simp [pureTokensList, pureTokens, List.foldl_append]
  | .arr items :: rest =>
    simp only [cbFreeList, cbFree, Bool.and_eq_true] at h
    rw [normLoop_arr, normLoop_pure env ctx (items ++ rest) seen acc
      (cbFreeList_append h.1 h.2)]
    simp [pureTokensList_append, pureTokensList, pureTokens, List.foldl_append]
  | .nullish :: rest =>
    simp only [cbFreeList, cbFree, Bool.true_and] at h
    rw [normLoop_nullish, normLoop_pure env ctx rest seen acc h]
    simp [pureTokensList, pureTokens]
  | .other b :: rest =>
    simp only [cbFreeList, cbFree, Bool.true_and] at h
    rw [normLoop_other, normLoop_pure env ctx rest seen acc h]
    simp [pureTokensList, pureTokens]
  | .cb id0 :: rest =>
    simp [cbFreeList, cbFree] at h
termination_by ClassName.sizeList stack
decreasing_by
  all_goals try rw [ClassName.sizeList_append]
  all_goals simp [ClassName.sizeList, ClassName.size]

/-- A fold of `addToken` over fresh distinct tokens appends them unchanged. -/
theorem foldl_addToken_nodup (l acc : List String) (h : (acc ++ l).Nodup) :
    l.foldl addToken acc = acc ++ l := by
  induction l generalizing acc with
  | nil => simp
  | cons x xs ih =>
    have h' : ((acc ++ [x]) ++ xs).Nodup := by simpa using h
    have hx : x ∉ acc := by
      rcases List.nodup_append.mp h with ⟨-, -, hdisj⟩
      exact fun hmem => hdisj hmem (List.mem_cons_self x xs)
    rw [List.foldl_cons, addToken, if_neg hx, ih (acc ++ [x]) h']
    simp

/-- C3: `normalizeClassName` splits strings on whitespace runs discarding
empty fragments, flattens nested arrays depth-first preserving left-to-right
order, and returns the insertion-ordered list of distinct tokens (first
occurrence fixes position): on callback-free input it equals the
first-occurrence dedup of the depth-first token sequence; for distinct
single-token strings a, b, c, d, `normalize([a,[b,c],d]) = [a,b,c,d]`, and
`normalize(['x','x','y']) = ['x','y']`. -/
theorem C3_normalize_order_dedup {γ : Type} (env : CbEnv γ) (ctx : Option γ) :
    (∀ e : ClassName, cbFree e = true →
        normalizeClassName env e ctx = .ok (dedupFirst (pureTokens e)))
    ∧ (∀ a b c d : String, splitWs a = [a] → splitWs b = [b] → splitWs c = [c] →
        splitWs d = [d] → [a, b, c, d].Nodup →
        normalizeClassName env (.arr [.str a, .arr [.str b, .str c], .str d]) ctx
          = .ok [a, b, c, d])
    ∧ (∀ x y : String, splitWs x = [x] → splitWs y = [y] → x ≠ y →
        normalizeClassName env (.arr [.str x, .str x, .str y]) ctx = .ok [x, y]) := by
  have hmain : ∀ e : ClassName, cbFree e = true →
      normalizeClassName env e ctx = .ok (dedupFirst (pureTokens e)) := by
    intro e he
    unfold normalizeClassName
    rw [normLoop_pure env ctx [e] [] []
      (by simp [cbFreeList, he])]
    simp [pureTokensList, dedupFirst, Except.map]
  refine ⟨hmain, ?_, ?_⟩
  · intro a b c d ha hb hc hd hnd
    rw [hmain _ (by simp [cbFree, cbFreeList])]
    simp only [pureTokens, pureTokensList, ha, hb, hc, hd]
    rw [show dedupFirst (([a] ++ (([b] ++ ([c] ++ [])) ++ ([d] ++ []))))
        = List.foldl addToken [] [a, b, c, d] by simp [dedupFirst]]
    rw [foldl_addToken_nodup [a, b, c, d] [] (by simpa using hnd)]
    simp
  · intro x y hx hy hxy
    rw [hmain _ (by simp [cbFree, cbFreeList])]
    simp only [pureTokens, pureTokensList, hx, hy]
    have : dedupFirst ([x] ++ (([x] ++ ([y] ++ []))))
        = List.foldl addToken [] [x, x, y] := by simp [dedupFirst]
    rw [this]
    simp only [List.foldl_cons, List.foldl_nil]
    rw [show addToken [] x = [x] from rfl]
    rw [show addToken [x] x = [x] by simp [addToken]]
    rw [show addToken [x] y = [x, y] by simp [addToken, Ne.symm hxy]]

unseal String.splitAux in
/-- Witness for C3 at concrete tokens. -/
theorem C3_normalize_order_dedup_witness :
    normalizeClassName ([] : CbEnv Unit)
        (.arr [.str "a", .arr [.str "b", .str "c"], .str "d"]) none
      = .ok ["a", "b", "c", "d"]
    ∧ normalizeClassName ([] : CbEnv Unit) (.arr [.str "x", .str "x", .str "y"]) none
      = .ok ["x", "y"]
    ∧ normalizeClassName ([] : CbEnv Unit) (.str "p  q") none = .ok (dedupFirst (pureTokens (.str "p  q"))) :=
  ⟨(C3_normalize_order_dedup ([] : CbEnv Unit) none).2.1 "a" "b" "c" "d"
      (by decide) (by decide) (by decide) (by decide) (by decide),
   (C3_normalize_order_dedup ([] : CbEnv Unit) none).2.2 "x" "y"
      (by decide) (by decide) (by decide),
   (C3_normalize_order_dedup ([] : CbEnv Unit) none).1 (.str "p  q") (by decide)⟩

/-! ## Claim C4: termination and cycle safety of normalizeClassName -/

/-- The loop's seen set records exactly the callbacks invoked; it stays
duplicate-free, so each distinct callback reference is invoked at most once
per top-level call. -/
theorem normLoop_seen_nodup {γ : Type} (env : CbEnv γ) (ctx : Option γ)
    (stack : List ClassName) (seen : List Nat) (acc res : List String)
    (seenOut : List Nat)
    (hrun : normLoop env ctx stack seen acc = .ok (res, seenOut))
    (hnd : seen.Nodup) : seenOut.Nodup := by
  match stack with
  | [] =>
    rw [normLoop_nil] at hrun
    cases hrun
    exact hnd
  | .str s :: rest =>
    rw [normLoop_str] at hrun
    exact normLoop_seen_nodup env ctx rest seen _ res seenOut hrun hnd
  | .arr items :: rest =>
    rw [normLoop_arr] at hrun
    exact normLoop_seen_nodup env ctx (items ++ rest) seen acc res seenOut hrun hnd
  | .nullish :: rest =>
    rw [normLoop_nullish] at hrun
    exact normLoop_seen_nodup env ctx rest seen acc res seenOut hrun hnd
  | .other b :: rest =>
    rw [normLoop_other] at hrun
    exact normLoop_seen_nodup env ctx rest seen acc res seenOut hrun hnd
  | .cb id0 :: rest =>
    by_cases hseen : id0 ∈ seen
    · rw [normLoop_cb_seen env ctx id0 rest seen acc hseen] at hrun
      exact normLoop_seen_nodup env ctx rest seen acc res seenOut hrun hnd
    · have hnd' : (id0 :: seen).Nodup := List.nodup_cons.mpr ⟨hseen, hnd⟩
      cases hlook : lookupCb env id0 with
      | none =>
        rw [normLoop_cb_new_none env ctx id0 rest seen acc hseen hlook] at hrun
        exact normLoop_seen_nodup env ctx rest (id0 :: seen) acc res seenOut hrun hnd'
      | some f =>
        rw [normLoop_cb_new_some env ctx id0 rest seen acc hseen hlook] at hrun
        split at hrun
        · exact absurd hrun (by simp)
        · rename_i v hres
          split at hrun
          · exact normLoop_seen_nodup env ctx (v :: rest) (id0 :: seen) acc res seenOut hrun hnd'
          · exact normLoop_seen_nodup env ctx rest (id0 :: seen) acc res seenOut hrun hnd'
termination_by (unseenCount env seen, ClassName.sizeList stack)
decreasing_by
  all_goals try (apply Prod.Lex.right
                 try rw [ClassName.sizeList_append]
                 simp [ClassName.sizeList, ClassName.size]
                 try omega)
  · rw [unseenCount_insert_eq env seen id0 (lookupCb_none_not_mem hlook)]
    apply Prod.Lex.right
    simp [ClassName.sizeList, ClassName.size]
  · apply Prod.Lex.left
    exact unseenCount_insert_lt env seen id0 (lookupCb_mem hlook) hseen
  · apply Prod.Lex.left
    exact unseenCount_insert_lt env seen id0 (lookupCb_mem hlook) hseen

unseal normLoop String.splitAux in
/-- C4: `normalizeClassName` terminates on every input of the model (it is a
total function); within one top-level call each distinct callback reference
is invoked at most once (the seen set stays duplicate-free), a re-encountered
callback reference is skipped without raising an error, and a callback `f`
whose result is `f` itself normalizes to the empty token list. -/
theorem C4_cycle_safety {γ : Type} :
    (∀ (env : CbEnv γ) (ctx : Option γ) (stack : List ClassName) (seen : List Nat)
        (acc res : List String) (seenOut : List Nat),
        normLoop env ctx stack seen acc = .ok (res, seenOut) → seen.Nodup → seenOut.Nodup)
    ∧ (∀ ctx : Option γ,
        normalizeClassName [(0, fun _ => .ok (.cb 0))] (.cb 0) ctx = .ok [])
    ∧ (∀ ctx : Option γ,
        normalizeClassName [(0, fun _ => .ok (.arr [.cb 0, .str "x"]))] (.cb 0) ctx
          = .ok ["x"]) :=
  ⟨fun env ctx stack seen acc res seenOut hrun hnd =>
      normLoop_seen_nodup env ctx stack seen acc res seenOut hrun hnd,
   fun _ => rfl, fun _ => rfl⟩

unseal normLoop in
/-- Witness for C4: running the loop on the self-returning callback invokes it
exactly once, and the resulting seen set is duplicate-free. -/
theorem C4_cycle_safety_witness : ([0] : List Nat).Nodup :=
  (C4_cycle_safety (γ := Unit)).1 [(0, fun _ => .ok (.cb 0))] none [.cb 0] [] [] [] [0]
    rfl List.nodup_nil

/-! ## Claim C2: plugin defaults, stable (stage, priority) sort, staged
execution -/

theorem pluginLE_trans {γ : Type} (a b c : Plugin γ) (h1 : pluginLE a b = true)
    (h2 : pluginLE b c = true) : pluginLE a c = true := by
  unfold pluginLE at *
  simp only [Bool.or_eq_true, Bool.and_eq_true, decide_eq_true_eq] at *
  omega

theorem pluginLE_total {γ : Type} (a b : Plugin γ) : pluginLE a b || pluginLE b a := by
  unfold pluginLE
  simp only [Bool.or_eq_true, Bool.and_eq_true, decide_eq_true_eq]
  omega

/-- A test plugin that appends fixed tokens to the base bucket. -/
def appendPlugin {γ : Type} (pid : String) (stage : Option PluginStage) (order : Option Int)
    (tokens : List String) : Plugin γ :=
  { id := pid
    stage := stage
    order := order
    apply := fun st => .ok { st with buckets := st.buckets.addBaseClasses tokens } }

/-- A test core plugin that appends "B" and registers two post-core callbacks
and one final-build callback. -/
def corePluginWithCallbacks {γ : Type} : Plugin γ :=
  { id := "core-with-callbacks"
    apply := fun st =>
      let st1 : BuilderState γ := { st with buckets := st.buckets.addBaseClasses ["B"] }
      let st2 := st1.addPostCoreCallback (fun b => b.addBaseClasses ["D1"])
      let st3 := st2.addPostCoreCallback (fun b => b.addBaseClasses ["D2"])
      .ok (st3.addFinalBuildCallback (fun b => b.addBaseClasses ["F"])) }

unseal List.merge List.mergeSort in
/-- C2: the Bucket Store constructor assigns the default stage 'core' to a
plugin without a stage and priority 0 to a plugin without one, sorts plugins
by stage rank ('before' < 'core' < 'after') then ascending priority, keeping
the original relative order of plugins that tie on both; `build()` then runs
the 'before' stage, the 'core' stage, the queued post-core callbacks in
registration order, the 'after' stage, and the final-build callbacks — so a
pre plugin appending "A", a main plugin appending "B" and a post plugin
appending "C" resolve to "A B C". -/
theorem C2_plugin_staging {γ : Type} :
    (∀ p : Plugin γ, p.stage = none → (normalizePlugin p).stage = some PluginStage.core)
    ∧ (∀ p : Plugin γ, p.order = none → (normalizePlugin p).order = some 0)
    ∧ (∀ ps : List (Plugin γ), (sortPlugins ps).Pairwise (fun a b => pluginLE a b = true))
    ∧ (∀ (ps : List (Plugin γ)) (p q : Plugin γ),
        p.stage.getD .core = q.stage.getD .core →
        p.order.getD 0 = q.order.getD 0 →
        List.Sublist [p, q] ps →
        List.Sublist [normalizePlugin p, normalizePlugin q] (sortPlugins ps))
    ∧ (ClassNameBuilder.new ({} : ArtoConfig Unit) [] [] none
        [appendPlugin "post" (some .after) none ["C"],
         appendPlugin "pre" (some .before) none ["A"],
         appendPlugin "main" none none ["B"]]).build = .ok ["A", "B", "C"]
    ∧ (ClassNameBuilder.new ({} : ArtoConfig Unit) [] [] none
        [appendPlugin "post" (some .after) none ["C"],
         appendPlugin "pre" (some .before) none ["A"],
         corePluginWithCallbacks]).build = .ok ["A", "B", "D1", "D2", "C", "F"] := by
  refine ⟨?_, ?_, ?_, ?_, rfl, rfl⟩
  · intro p h
    simp [normalizePlugin, h]
  · intro p h
    simp [normalizePlugin, h]
  · intro ps
    exact List.sorted_mergeSort
      (fun a b c h1 h2 => pluginLE_trans a b c h1 h2)
      (fun a b => pluginLE_total a b)
      (ps.map normalizePlugin)
  · intro ps p q hstage horder hsub
    unfold sortPlugins
    apply List.pair_sublist_mergeSort
      (fun a b c h1 h2 => pluginLE_trans a b c h1 h2)
      (fun a b => pluginLE_total a b)
    · simp [pluginLE, normalizePlugin, hstage, horder]
    · exact hsub.map normalizePlugin

def stabilityPluginOne : Plugin Unit := { id := "w1", apply := fun st => .ok st }

def stabilityPluginTwo : Plugin Unit := { id := "w2", apply := fun st => .ok st }

unseal List.merge List.mergeSort in
/-- Witness for C2: the defaults apply to a stage-less plugin, and two plugins
tying on stage and priority keep their relative order through the sort. -/
theorem C2_plugin_staging_witness :
    (normalizePlugin stabilityPluginOne).stage = some PluginStage.core
    ∧ List.Sublist [normalizePlugin stabilityPluginOne, normalizePlugin stabilityPluginTwo]
        (sortPlugins [stabilityPluginOne, stabilityPluginTwo]) :=
  ⟨(C2_plugin_staging (γ := Unit)).1 stabilityPluginOne rfl,
   (C2_plugin_staging (γ := Unit)).2.2.2.1 [stabilityPluginOne, stabilityPluginTwo]
     stabilityPluginOne stabilityPluginTwo rfl rfl (List.Sublist.refl _)⟩

/-! ## Claim C6: rule order, empty `when`, and base removal before add -/

/-- The single rule of the C6 scenario: always matches, clears the base
bucket, then adds "Y". -/
def alwaysRule : ArtoRule Unit :=
  { when := {}, remove := some { base := true }, add := some (.str "Y") }

/-- The C6 scenario configuration: base class "X" plus `alwaysRule`. -/
def alwaysRuleConfig : ArtoConfig Unit :=
  { className := some (.str "X"), rules := some [alwaysRule] }

unseal normLoop String.splitAux List.merge List.mergeSort in
/-- C6: rules are evaluated and applied in declaration order (the rules plugin
folds over the rule list front to back), a rule whose `when` is empty always
applies (the default logic is AND over the empty list of matches), and for a
configuration with base class "X" and the single rule
`{when:{}, remove:{base:true}, add:"Y"}` resolution yields exactly "Y": the
base bucket is cleared before the normalized `add` expression is appended. -/
theorem C6_rules_empty_when_and_order {γ : Type} :
    (∀ (selectedVariants : StrMap (Option String)) (activeStates : List String)
        (ctx : Option γ),
        doesRuleApply ({} : ArtoRuleWhen γ) selectedVariants activeStates ctx = true)
    ∧ (∀ (env : CbEnv γ) (st : BuilderState γ) (r : ArtoRule γ) (rs : List (ArtoRule γ)),
        st.artoConfig.rules = some (r :: rs) →
        rulesApply env st
          = (applyRule env st r) >>= fun st' => rs.foldlM (applyRule env) st')
    ∧ arto alwaysRuleConfig [] [] [] {} none = .ok "Y" := by
  refine ⟨fun _ _ _ => rfl, ?_, rfl⟩
  intro env st r rs h
  unfold rulesApply
  rw [h]
  simp [List.foldlM_cons]

unseal normLoop String.splitAux List.merge List.mergeSort in
/-- Witness for C6: unfolding one step of the rule loop on the concrete C6
scenario builder state. -/
theorem C6_rules_empty_when_and_order_witness :
    rulesApply ([] : CbEnv Unit) (ClassNameBuilder.new alwaysRuleConfig [] [] none []).state
      = (applyRule [] (ClassNameBuilder.new alwaysRuleConfig [] [] none []).state alwaysRule)
          >>= fun st' => ([] : List (ArtoRule Unit)).foldlM (applyRule []) st' :=
  (C6_rules_empty_when_and_order (γ := Unit)).2.1 []
    (ClassNameBuilder.new alwaysRuleConfig [] [] none []).state alwaysRule [] rfl

/-! ## Claim C7: invalid variant value raises the typed error -/

/-- C7: if the resolved selection maps a declared variant key to a value with
no entry among the declared values for that key, resolution fails with the
single typed ArtoError whose message names both the offending key and the
offending value. -/
theorem C7_invalid_variant_value {γ : Type} (env : CbEnv γ) (k v : String)
    (opts : StrMap (VariantEntry γ)) (ctx : Option γ)
    (hlookup : getA opts v = none) :
    arto { className := none, variants := some [(k, opts)], states := none, rules := none,
           defaultVariants := [] } env [] [] { variants := [(k, some v)], states := [] } ctx
      = .error ("[Arto Error]: Invalid value '" ++ v ++ "' for variant '" ++ k ++ "'.") := by
  simp [arto, safeMergeDefaults, collectTrueKeys, ClassNameBuilder.new, ClassNameBuilder.build,
    ClassNameBuilder.runPipeline, sortPlugins, normalizePlugin, VariantsPlugin,
    runStage, runCallbacks, variantsApply, lookupSel, getA, setA, hlookup, List.foldlM,
    Bind.bind, Except.bind, Except.map, Except.instMonad]

/-- Witness for C7: an undeclared value 'medium' for the declared key 'size'. -/
theorem C7_invalid_variant_value_witness :
    arto { className := none,
           variants := some [("size", [("small", .cls (.str "btn-sm"))])],
           states := none, rules := none, defaultVariants := [] }
        ([] : CbEnv Unit) [] [] { variants := [("size", some "medium")], states := [] } none
      = .error "[Arto Error]: Invalid value 'medium' for variant 'size'." :=
  C7_invalid_variant_value ([] : CbEnv Unit) "size" "medium"
    [("small", .cls (.str "btn-sm"))] none rfl

/-! ## Claim C10: the error fires on falsy entries, null selections skip -/

/-- C10: the "Invalid value ..." error is raised exactly when the entry looked
up for the selected value is falsy, not exactly when the value is undeclared:
a declared value whose mapped expression is falsy (for example the empty
string) throws the same typed error, while a selection of null/undefined for
a key silently skips that variant instead of erroring. -/
theorem C10_falsy_entry_and_null_selection {γ : Type} (env : CbEnv γ) (k v : String)
    (opts : StrMap (VariantEntry γ)) (ctx : Option γ) :
    (∀ entry : VariantEntry γ, getA opts v = some entry → entry.isFalsy = true →
        arto { className := none, variants := some [(k, opts)], states := none, rules := none,
               defaultVariants := [] } env [] [] { variants := [(k, some v)], states := [] } ctx
          = .error ("[Arto Error]: Invalid value '" ++ v ++ "' for variant '" ++ k ++ "'."))
    ∧ arto { className := none, variants := some [(k, opts)], states := none, rules := none,
             defaultVariants := [] } env [] [] { variants := [(k, none)], states := [] } ctx
        = .ok "" := by
  constructor
  · intro entry hget hfalsy
    simp [arto, safeMergeDefaults, collectTrueKeys, ClassNameBuilder.new, ClassNameBuilder.build,
      ClassNameBuilder.runPipeline, sortPlugins, normalizePlugin, VariantsPlugin,
      runStage, runCallbacks, variantsApply, lookupSel, getA, setA, hget, hfalsy, List.foldlM,
      Bind.bind, Except.bind, Except.map, Except.instMonad]
  · simp [arto, safeMergeDefaults, collectTrueKeys, ClassNameBuilder.new, ClassNameBuilder.build,
      ClassNameBuilder.runPipeline, sortPlugins, normalizePlugin, VariantsPlugin,
      runStage, runCallbacks, variantsApply, lookupSel, getA, setA, List.foldlM,
      Bind.bind, Except.bind, Except.map, Except.instMonad, Pure.pure, Except.pure,
      Buckets.finalClassList, String.intercalate]

/-- Witness for C10: the declared value 'small' maps to the empty string, a
falsy expression, and still raises the invalid-value error naming it. -/
theorem C10_falsy_entry_and_null_selection_witness :
    arto { className := none,
           variants := some [("size", [("small", .cls (.str ""))])],
           states := none, rules := none, defaultVariants := [] }
        ([] : CbEnv Unit) [] [] { variants := [("size", some "small")], states := [] } none
      = .error "[Arto Error]: Invalid value 'small' for variant 'size'." :=
  (C10_falsy_entry_and_null_selection ([] : CbEnv Unit) "size" "small"
      [("small", .cls (.str ""))] none).1 (.cls (.str "")) rfl rfl


/-! ## Claim C1: final concatenation order and absence of cross-bucket dedup -/

theorem foldl_append_eq {α β : Type} (l : List α) (f : α → List β) (init : List β) :
    l.foldl (fun acc kv => acc ++ f kv) init = init ++ (l.map f).flatten := by
  induction l generalizing init with
  | nil => simp
  | cons x xs ih => simp [ih, List.append_assoc]

theorem foldl_getA_append (m : StrMap (List String)) (active : List String)
    (init : List String) :
    active.foldl (fun acc st =>
        match getA m st with
        | some classes => acc ++ classes
        | none => acc) init
      = init ++ (active.map (fun st => (getA m st).getD [])).flatten := by
  induction active generalizing init with
  | nil => simp
  | cons st rest ih =>
    simp only [List.foldl_cons, List.map_cons, List.flatten_cons]
    cases h : getA m st <;> simp [h, ih, List.append_assoc]

theorem flatten_filter_active (m : StrMap (List String)) (active : List String)
    (h : ∀ kv ∈ m, kv.2 ≠ [] → kv.1 ∈ active) :
    ((m.filter (fun kv => active.contains kv.1)).map Prod.snd).flatten
      = (m.map Prod.snd).flatten := by
  induction m with
  | nil => rfl
  | cons kv rest ih =>
    have hrest : ∀ p ∈ rest, p.2 ≠ [] → p.1 ∈ active :=
      fun p hp => h p (List.mem_cons_of_mem kv hp)
    simp only [List.filter_cons]
    by_cases hc : kv.1 ∈ active
    · rw [if_pos (show active.contains kv.1 = true by simpa using hc)]
      simp only [List.map_cons, List.flatten_cons]
      rw [ih hrest]
    · have hnil : kv.2 = [] := by
        by_contra hne
        exact hc (h kv (List.mem_cons_self kv rest) hne)
      rw [if_neg (show ¬ active.contains kv.1 = true by simpa using hc)]
      simp only [List.map_cons, List.flatten_cons, hnil, List.nil_append]
      exact ih hrest

/-- C1: the final token list of `build()` is exactly the base bucket, then each
variant bucket in insertion order, then for each variant the (variant,state)
buckets for every state in the active set, then the active global-state
buckets (all global-state buckets holding tokens belong to active states
after a run of the built-in plugins); no deduplication crosses buckets — a
token contributed to two buckets appears twice. -/
theorem C1_build_concatenation {γ : Type} :
    (∀ b : Buckets γ,
        b.finalClassList
          = b.baseClassNames
            ++ (b.variantClassNames.map Prod.snd).flatten
            ++ (b.variantStateClassNames.map (fun kv =>
                  (b.activeStates.map (fun st => (getA kv.2 st).getD [])).flatten)).flatten
            ++ (b.globalStateClassNames.map Prod.snd).flatten)
    ∧ (∀ (cb : ClassNameBuilder γ) (b : Buckets γ),
        cb.runPipeline = .ok b →
        (∀ kv ∈ b.globalStateClassNames, kv.2 ≠ [] → kv.1 ∈ b.activeStates) →
        cb.build = .ok (b.baseClassNames
            ++ (b.variantClassNames.map Prod.snd).flatten
            ++ (b.variantStateClassNames.map (fun kv =>
                  (b.activeStates.map (fun st => (getA kv.2 st).getD [])).flatten)).flatten
            ++ ((b.globalStateClassNames.filter (fun kv => b.activeStates.contains kv.1)).map
                  Prod.snd).flatten))
    ∧ Buckets.finalClassList
        { baseClassNames := ["x"], variantClassNames := [("v", ["x"])],
          variantStateClassNames := [], globalStateClassNames := [],
          selectedVariants := [], activeStates := [], context := (none : Option Unit) }
        = ["x", "x"] := by
  have hflat : ∀ b : Buckets γ,
      b.finalClassList
        = b.baseClassNames
          ++ (b.variantClassNames.map Prod.snd).flatten
          ++ (b.variantStateClassNames.map (fun kv =>
                (b.activeStates.map (fun st => (getA kv.2 st).getD [])).flatten)).flatten
          ++ (b.globalStateClassNames.map Prod.snd).flatten := by
    intro b
    unfold Buckets.finalClassList
    simp only [foldl_getA_append, foldl_append_eq]
    simp [List.append_assoc]
  refine ⟨hflat, ?_, rfl⟩
  intro cb b hrun h
  unfold ClassNameBuilder.build
  rw [hrun]
  simp only [Except.map]
  rw [hflat b, flatten_filter_active b.globalStateClassNames b.activeStates h]

/-- A test plugin adding classes to the global bucket of state "s". -/
def globalStatePlugin : Plugin Unit :=
  { id := "global-state-adder"
    apply := fun st =>
      .ok { st with buckets := st.buckets.addGlobalStateClasses "s" ["gs1"] } }

/-- The builder of the C1 witness: active state "s" plus `globalStatePlugin`. -/
def c1Builder : ClassNameBuilder Unit :=
  ClassNameBuilder.new ({} : ArtoConfig Unit) [] ["s"] none [globalStatePlugin]

/-- The bucket state after the C1 witness pipeline. -/
def c1Buckets : Buckets Unit :=
  { baseClassNames := [], variantClassNames := [], variantStateClassNames := [],
    globalStateClassNames := [("s", ["gs1"])], selectedVariants := [],
    activeStates := ["s"], context := none }

unseal List.merge List.mergeSort in
/-- Witness for C1: a concrete pipeline whose only nonempty global-state
bucket belongs to the active state "s". -/
theorem C1_build_concatenation_witness :
    c1Builder.build
      = .ok (c1Buckets.baseClassNames
          ++ (c1Buckets.variantClassNames.map Prod.snd).flatten
          ++ (c1Buckets.variantStateClassNames.map (fun kv =>
                (c1Buckets.activeStates.map (fun st => (getA kv.2 st).getD [])).flatten)).flatten
          ++ ((c1Buckets.globalStateClassNames.filter
                (fun kv => c1Buckets.activeStates.contains kv.1)).map Prod.snd).flatten) :=
  (C1_build_concatenation (γ := Unit)).2.1 c1Builder c1Buckets rfl (by decide)

/-! ## Claim C9: state dependencies gate global state classes -/


theorem statesStep_preserves {γ : Type} (env : CbEnv γ) (sm : StrMap (StateEntry γ))
    (act : List String) (st st' : BuilderState γ) (state : String)
    (h : statesStep env sm act st state = .ok st') :
    st'.buckets.context = st.buckets.context
    ∧ st'.buckets.activeStates = st.buckets.activeStates
    ∧ ∀ s : String, state ≠ s →
        getA st'.buckets.globalStateClassNames s = getA st.buckets.globalStateClassNames s := by
  unfold statesStep at h
  cases hget : getA sm state with
  | none =>
    simp only [hget] at h
    cases h
    exact ⟨rfl, rfl, fun s _ => rfl⟩
  | some entry =>
    simp only [hget] at h
    by_cases hf : entry.isFalsy = true
    · rw [if_pos hf] at h
      cases h
      exact ⟨rfl, rfl, fun s _ => rfl⟩
    · rw [if_neg hf] at h
      by_cases hg : (isStateConfig entry
          && !checkStateDependencies entry.dependsOn act st.buckets.context) = true
      · rw [if_pos hg] at h
        cases h
        exact ⟨rfl, rfl, fun s _ => rfl⟩
      · rw [if_neg hg] at h
        cases hex : extractStateClassName entry with
        | error e =>
          simp only [hex] at h
          exact absurd h (by simp)
        | ok cn =>
          simp only [hex] at h
          cases hn : normalizeClassName env cn st.buckets.context with
          | error e =>
            simp only [hn] at h
            exact absurd h (by simp)
          | ok cls =>
            simp only [hn] at h
            cases h
            refine ⟨rfl, rfl, fun s hs => ?_⟩
            simp only [Buckets.addGlobalStateClasses]
            exact getA_setA_ne _ state s _ hs

theorem statesStep_contributes {γ : Type} (env : CbEnv γ) (sm : StrMap (StateEntry γ))
    (act : List String) (st : BuilderState γ) (s : String) (entry : StateEntry γ)
    (cn : ClassName) (cls : List String)
    (hget : getA sm s = some entry)
    (hfalsy : entry.isFalsy = false)
    (hguard : isStateConfig entry = false
      ∨ checkStateDependencies entry.dependsOn act st.buckets.context = true)
    (hex : extractStateClassName entry = .ok cn)
    (hnorm : normalizeClassName env cn st.buckets.context = .ok cls)
    (hempty : getA st.buckets.globalStateClassNames s = none) :
    statesStep env sm act st s
      = .ok { st with buckets := st.buckets.addGlobalStateClasses s cls }
    ∧ getA (st.buckets.addGlobalStateClasses s cls).globalStateClassNames s = some cls := by
  have hguard' : (isStateConfig entry
      && !checkStateDependencies entry.dependsOn act st.buckets.context) = false := by
    rcases hguard with h | h <;> simp [h]
  constructor
  · unfold statesStep
    simp only [hget]
    rw [if_neg (by simp [hfalsy]), if_neg (by simp [hguard'])]
    simp only [hex, hnorm]
  · simp [Buckets.addGlobalStateClasses, hempty, getA_setA_self]

theorem statesStep_skips {γ : Type} (env : CbEnv γ) (sm : StrMap (StateEntry γ))
    (act : List String) (st : BuilderState γ) (s : String)
    (hcond : getA sm s = none
      ∨ (∃ entry, getA sm s = some entry ∧ entry.isFalsy = true)
      ∨ (∃ entry, getA sm s = some entry ∧ isStateConfig entry = true
          ∧ checkStateDependencies entry.dependsOn act st.buckets.context = false)) :
    statesStep env sm act st s = .ok st := by
  unfold statesStep
  rcases hcond with h | ⟨entry, hget, hf⟩ | ⟨entry, hget, hsc, hdep⟩
  · simp only [h]
  · simp only [hget]
    rw [if_pos hf]
  · have hf : entry.isFalsy = false := by
      cases entry with
      | cls c => simp [isStateConfig] at hsc
      | sconf c dep => simp [StateEntry.isFalsy]
    simp only [hget]
    rw [if_neg (by simp [hf]), if_pos (by simp [hsc, hdep])]

theorem statesLoop_untouched {γ : Type} (env : CbEnv γ) (sm : StrMap (StateEntry γ))
    (act : List String) :
    ∀ (todo : List String) (st st1 : BuilderState γ) (s : String),
    List.foldlM (statesStep env sm act) st todo = .ok st1 →
    s ∉ todo →
    getA st1.buckets.globalStateClassNames s = getA st.buckets.globalStateClassNames s
    ∧ st1.buckets.context = st.buckets.context
    ∧ st1.buckets.activeStates = st.buckets.activeStates := by
  intro todo
  induction todo with
  | nil =>
    intro st st1 s h _
    simp only [List.foldlM_nil] at h
    cases h
    exact ⟨rfl, rfl, rfl⟩
  | cons x rest ih =>
    intro st st1 s h hmem
    simp only [List.foldlM_cons] at h
    have hxs : x ≠ s := fun he => hmem (he ▸ List.mem_cons_self x rest)
    have hrest : s ∉ rest := fun hm => hmem (List.mem_cons_of_mem x hm)
    cases hstep : statesStep env sm act st x with
    | error e =>
      rw [hstep] at h
      exact absurd h (by simp [Bind.bind, Except.bind])
    | ok st' =>
      rw [hstep] at h
      simp only [Bind.bind, Except.bind] at h
      obtain ⟨h1, h2, h3⟩ := ih st' st1 s h hrest
      obtain ⟨p1, p2, p3⟩ := statesStep_preserves env sm act st st' x hstep
      exact ⟨h1.trans (p3 s hxs), h2.trans p1, h3.trans p2⟩

theorem statesLoop_hit {γ : Type} (env : CbEnv γ) (sm : StrMap (StateEntry γ))
    (act : List String) :
    ∀ (todo : List String) (st st1 : BuilderState γ) (s : String) (entry : StateEntry γ)
      (cn : ClassName) (cls : List String),
    List.foldlM (statesStep env sm act) st todo = .ok st1 →
    todo.Nodup →
    s ∈ todo →
    getA st.buckets.globalStateClassNames s = none →
    getA sm s = some entry →
    entry.isFalsy = false →
    (isStateConfig entry = false
      ∨ checkStateDependencies entry.dependsOn act st.buckets.context = true) →
    extractStateClassName entry = .ok cn →
    normalizeClassName env cn st.buckets.context = .ok cls →
    getA st1.buckets.globalStateClassNames s = some cls := by
  intro todo
  induction todo with
  | nil =>
    intro st st1 s entry cn cls h hnd hmem
    exact absurd hmem (by simp)
  | cons x rest ih =>
    intro st st1 s entry cn cls h hnd hmem hempty hget hfalsy hguard hex hnorm
    simp only [List.foldlM_cons] at h
    rcases List.mem_cons.mp hmem with he | hmemr
    · subst he
      obtain ⟨hstep, hbucket⟩ :=
        statesStep_contributes env sm act st s entry cn cls hget hfalsy hguard hex hnorm hempty
      rw [hstep] at h
      simp only [Bind.bind, Except.bind] at h
      have hnot : s ∉ rest := (List.nodup_cons.mp hnd).1
      obtain ⟨h1, -, -⟩ := statesLoop_untouched env sm act rest _ st1 s h hnot
      exact h1.trans hbucket
    · have hxs : x ≠ s := fun hxeq => (List.nodup_cons.mp hnd).1 (hxeq ▸ hmemr)
      cases hstep : statesStep env sm act st x with
      | error e =>
        rw [hstep] at h
        exact absurd h (by simp [Bind.bind, Except.bind])
      | ok st' =>
        rw [hstep] at h
        simp only [Bind.bind, Except.bind] at h
        obtain ⟨p1, p2, p3⟩ := statesStep_preserves env sm act st st' x hstep
        refine ih st' st1 s entry cn cls h (List.nodup_cons.mp hnd).2 hmemr ?_ hget hfalsy ?_ hex ?_
        · rw [p3 s hxs]
          exact hempty
        · rcases hguard with hg | hg
          · exact Or.inl hg
          · exact Or.inr (by rw [p1]; exact hg)
        · rw [p1]
          exact hnorm

theorem statesLoop_skipped {γ : Type} (env : CbEnv γ) (sm : StrMap (StateEntry γ))
    (act : List String) :
    ∀ (todo : List String) (st st1 : BuilderState γ) (s : String),
    List.foldlM (statesStep env sm act) st todo = .ok st1 →
    getA st.buckets.globalStateClassNames s = none →
    (getA sm s = none
      ∨ (∃ entry, getA sm s = some entry ∧ entry.isFalsy = true)
      ∨ (∃ entry, getA sm s = some entry ∧ isStateConfig entry = true
          ∧ checkStateDependencies entry.dependsOn act st.buckets.context = false)) →
    getA st1.buckets.globalStateClassNames s = none := by
  intro todo
  induction todo with
  | nil =>
    intro st st1 s h hempty _
    simp only [List.foldlM_nil] at h
    cases h
    exact hempty
  | cons x rest ih =>
    intro st st1 s h hempty hcond
    simp only [List.foldlM_cons] at h
    by_cases hxs : x = s
    · subst hxs
      have hstep := statesStep_skips env sm act st x hcond
      rw [hstep] at h
      simp only [Bind.bind, Except.bind] at h
      exact ih st st1 x h hempty hcond
    · cases hstep : statesStep env sm act st x with
      | error e =>
        rw [hstep] at h
        exact absurd h (by simp [Bind.bind, Except.bind])
      | ok st' =>
        rw [hstep] at h
        simp only [Bind.bind, Except.bind] at h
        obtain ⟨p1, p2, p3⟩ := statesStep_preserves env sm act st st' x hstep
        refine ih st' st1 s h ?_ ?_
        · rw [p3 s hxs]
          exact hempty
        · rcases hcond with hc | ⟨entry, hg, hf⟩ | ⟨entry, hg, hsc, hdep⟩
          · exact Or.inl hc
          · exact Or.inr (Or.inl ⟨entry, hg, hf⟩)
          · exact Or.inr (Or.inr ⟨entry, hg, hsc, by rw [p1]; exact hdep⟩)

/-- C9: a declared global state's classes appear iff the state is active and
its dependency holds: a list dependency is a conjunction where a string entry
requires the named state active and a `{not:[...]}` entry requires none of
the named states active — `dependsOn: ['a', {not:['b']}]` contributes iff 'a'
is active and 'b' is not — while a function dependency contributes iff it
returns true on (activeStates, context); an unmet dependency skips the state
silently. -/
theorem C9_state_dependencies {γ : Type} :
    (∀ (a : String) (bs : List String) (active : List String) (ctx : Option γ),
        checkStateDependencies (some (.list [.req a, .exclude bs])) active ctx
          = (active.contains a && !bs.any (active.contains ·)))
    ∧ (∀ (f : List String → Option γ → Bool) (active : List String) (ctx : Option γ),
        checkStateDependencies (some (.fn f)) active ctx = f active ctx)
    ∧ (∀ (env : CbEnv γ) (sm : StrMap (StateEntry γ)) (st0 st1 : BuilderState γ)
          (s : String) (entry : StateEntry γ) (cn : ClassName) (cls : List String),
        statesApply env sm st0 = .ok st1 →
        st0.buckets.activeStates.Nodup →
        getA st0.buckets.globalStateClassNames s = none →
        s ∈ st0.buckets.activeStates →
        getA sm s = some entry →
        entry.isFalsy = false →
        (isStateConfig entry = false
          ∨ checkStateDependencies entry.dependsOn st0.buckets.activeStates
              st0.buckets.context = true) →
        extractStateClassName entry = .ok cn →
        normalizeClassName env cn st0.buckets.context = .ok cls →
        getA st1.buckets.globalStateClassNames s = some cls)
    ∧ (∀ (env : CbEnv γ) (sm : StrMap (StateEntry γ)) (st0 st1 : BuilderState γ)
          (s : String),
        statesApply env sm st0 = .ok st1 →
        getA st0.buckets.globalStateClassNames s = none →
        (s ∉ st0.buckets.activeStates
          ∨ getA sm s = none
          ∨ (∃ entry, getA sm s = some entry ∧ entry.isFalsy = true)
          ∨ (∃ entry, getA sm s = some entry ∧ isStateConfig entry = true
              ∧ checkStateDependencies entry.dependsOn st0.buckets.activeStates
                  st0.buckets.context = false)) →
        getA st1.buckets.globalStateClassNames s = none)
    ∧ (∀ (env : CbEnv γ) (s : String) (c : ClassName) (dep : Option (StateDependency γ))
          (st0 : BuilderState γ),
        checkStateDependencies dep st0.buckets.activeStates st0.buckets.context = false →
        statesApply env [(s, .sconf c dep)] st0 = .ok st0) := by
  refine ⟨?_, fun f active ctx => rfl, ?_, ?_, ?_⟩
  · intro a bs active ctx
    simp [checkStateDependencies]
  · intro env sm st0 st1 s entry cn cls hrun hnd hempty hmem hget hfalsy hguard hex hnorm
    unfold statesApply at hrun
    exact statesLoop_hit env sm st0.buckets.activeStates st0.buckets.activeStates st0 st1
      s entry cn cls hrun hnd hmem hempty hget hfalsy hguard hex hnorm
  · intro env sm st0 st1 s hrun hempty hcond
    unfold statesApply at hrun
    rcases hcond with hc | hc | hc | hc
    · obtain ⟨h1, -, -⟩ := statesLoop_untouched env sm st0.buckets.activeStates
        st0.buckets.activeStates st0 st1 s hrun hc
      exact h1.trans hempty
    · exact statesLoop_skipped env sm st0.buckets.activeStates st0.buckets.activeStates
        st0 st1 s hrun hempty (Or.inl hc)
    · exact statesLoop_skipped env sm st0.buckets.activeStates st0.buckets.activeStates
        st0 st1 s hrun hempty (Or.inr (Or.inl hc))
    · exact statesLoop_skipped env sm st0.buckets.activeStates st0.buckets.activeStates
        st0 st1 s hrun hempty (Or.inr (Or.inr hc))
  · intro env s c dep st0 hdep
    unfold statesApply
    suffices hall : ∀ todo : List String,
        List.foldlM (statesStep env [(s, .sconf c dep)] st0.buckets.activeStates) st0 todo
          = .ok st0 by
      exact hall st0.buckets.activeStates
    intro todo
    induction todo with
    | nil => rfl
    | cons x rest ih =>
      have hstep : statesStep env [(s, .sconf c dep)] st0.buckets.activeStates st0 x
          = .ok st0 := by
        apply statesStep_skips
        by_cases hx : s = x
        · subst hx
          exact Or.inr (Or.inr ⟨.sconf c dep, by simp [getA], by simp [isStateConfig], hdep⟩)
        · exact Or.inl (by simp [getA, hx])
      simp only [List.foldlM_cons, hstep, Bind.bind, Except.bind]
      exact ih

/-- The C9 witness state map: "s" depends on 'a' active and 'b' inactive;
"t" is a plain class entry. -/
def c9States : StrMap (StateEntry Unit) :=
  [("s", .sconf (.str "sc") (some (.list [.req "a", .exclude ["b"]]))),
   ("t", .cls (.str "tc"))]

/-- The C9 witness initial builder state with active states s, a, t. -/
def c9Start : BuilderState Unit :=
  { artoConfig := {}
    buckets := { selectedVariants := [], activeStates := ["s", "a", "t"], context := none } }

/-- The C9 witness final builder state: "s" and "t" contributed, nothing else. -/
def c9Final : BuilderState Unit :=
  { artoConfig := {}
    buckets := { globalStateClassNames := [("s", ["sc"]), ("t", ["tc"])],
                 selectedVariants := [], activeStates := ["s", "a", "t"], context := none } }

unseal normLoop String.splitAux in
/-- Witness for C9: on the concrete run, state "s" (met dependency)
contributes, "b" (inactive) contributes nothing, and an unmet dependency on a
singleton map leaves the builder state untouched without an error. -/
theorem C9_state_dependencies_witness :
    getA c9Final.buckets.globalStateClassNames "s" = some ["sc"]
    ∧ getA c9Final.buckets.globalStateClassNames "b" = none
    ∧ statesApply ([] : CbEnv Unit)
        [("x", .sconf (.str "xc") (some (.list [.req "zz"])))] c9Start = .ok c9Start :=
  ⟨(C9_state_dependencies (γ := Unit)).2.2.1 [] c9States c9Start c9Final "s"
      (.sconf (.str "sc") (some (.list [.req "a", .exclude ["b"]]))) (.str "sc") ["sc"]
      rfl (by decide) rfl (by decide) rfl rfl (Or.inr (by decide)) rfl rfl,
   (C9_state_dependencies (γ := Unit)).2.2.2.1 [] c9States c9Start c9Final "b"
      rfl rfl (Or.inl (by decide)),
   (C9_state_dependencies (γ := Unit)).2.2.2.2 [] "x" (.str "xc")
      (some (.list [.req "zz"])) c9Start (by decide)⟩
